import Mathlib

/-!
Shallow embedding of the Gemmini_cmodel systolic-array simulator core:
the delay FIFO (src/utils/fifo.hpp), the processing element
(src/gemmini/pe.cpp), the two systolic-array iterations
(src/gemmini/systolic_array.cpp and src/execute/systolic_array.cpp) and the
block-tiling matrix multiplier (src/gemmini/matrix_multiplier.cpp).

Machine integers are modelled as ℤ with explicit two's-complement
normalisation where the C++ code narrows or can wrap.  Reads and writes of
the flat row-major matrix storage are modelled on the flat data list; an
access outside the allocation (undefined behaviour in the C++) is `none`.
-/

namespace Gemmini

/-- Two's-complement narrowing to a signed 16-bit value (int16_t). -/
def toInt16 (z : Int) : Int := (z + 2 ^ 15) % 2 ^ 16 - 2 ^ 15

/-- Two's-complement wrap-around of a signed 32-bit value (int32_t). -/
def toInt32 (z : Int) : Int := (z + 2 ^ 31) % 2 ^ 32 - 2 ^ 31

/-- Evaluation of `z & ((1 << w) - 1)` on a two's-complement machine
integer: the low `w` bits of `z`, as a non-negative value. -/
def lowBits (w : Nat) (z : Int) : Int := z % 2 ^ w

/-- Matrix (src/execute/matrix.hpp): `rows × cols` grid stored row-major in a
flat vector; the constructor zero-fills (`mData(rows * cols, 0)`). -/
structure Matrix where
  rows : Nat
  cols : Nat
  data : List Int
  deriving Repr, DecidableEq

namespace Matrix

/-- Constructor `Matrix(rows, cols)`: zero-filled storage. -/
def mk0 (r c : Nat) : Matrix := ⟨r, c, List.replicate (r * c) 0⟩

/-- Read `At(row, col)` / `at(row, col)`: `mData[row * mCols + col]`.
The C++ performs an unchecked flat read; an index outside the allocation is
undefined behaviour, modelled as `none`. -/
def atF (m : Matrix) (r c : Nat) : Option Int := m.data[r * m.cols + c]?

/-- Write `At(row, col) = v` through the same unchecked flat index. -/
def setF (m : Matrix) (r c : Nat) (v : Int) : Option Matrix :=
  if r * m.cols + c < m.data.length then
    some { m with data := m.data.set (r * m.cols + c) v }
  else none

end Matrix

/-! ## DelayFifo (src/utils/fifo.hpp)

State is the `std::deque<T>` contents.  `HandleInput` pushes at the back.
`Tick` pops the front and emits it whenever `size() >= depth`; with
`depth = 0` and an empty deque this calls `front()`/`pop_front()` on an
empty container, which is undefined behaviour, modelled as `none`. -/

namespace DelayFifo

/-- Push `DelayFifo::HandleInput`: `mFifo.push_back(data)`. -/
def handleInput {T : Type} (fifo : List T) (d : T) : List T := fifo ++ [d]

/-- Method `DelayFifo::Tick`: if `mFifo.size() >= mDepth`, pop the front element and
send it on the output port.  Returns the new deque contents and the emitted
value; `none` marks the undefined `front()` on an empty deque. -/
def tick {T : Type} (depth : Nat) (fifo : List T) : Option (List T × Option T) :=
  if depth ≤ fifo.length then
    match fifo with
    | [] => none
    | x :: rest => some (rest, some x)
  else some (fifo, none)

end DelayFifo

/-! ## Processing element (src/gemmini/pe.cpp, header src/include/gemmini/pe.hpp) -/

/-- PE register state (src/include/gemmini/pe.hpp lines 104-118). -/
structure PEState where
  weightReg : Int
  actReg : Int
  partialSumReg : Int
  busy : Bool
  weightLoadingMode : Bool
  cycleCounter : Nat
  weightWidth : Nat
  computeTime : Nat
  totalMacs : Nat
  deriving Repr, DecidableEq

namespace PEState

/-- Handler `PE::HandleWeight`: `mWeightReg = weight`. -/
def handleWeight (st : PEState) (w : Int) : PEState := { st with weightReg := w }

/-- Handler `PE::HandleActivation`: registers the activation and forwards the
registered value east (the returned `Int` is the value sent on `outAct`). -/
def handleActivation (st : PEState) (act : Int) : PEState × Int :=
  ({ st with actReg := act }, act)

/-- Handler `PE::HandleWeightPartialSum` (src/gemmini/pe.cpp lines 67-95).
In weight-loading mode the PE stores the low `mWeightWidth` bits of the
incoming value as its weight and forwards the value south unchanged.
In compute mode it computes `mac = weight * act`, accumulates
`partialSum = wtPs + mac` (32-bit wrap) and forwards the partial sum south.
The returned `Int` is the value sent on `outWtPs`. -/
def handleWeightPartialSum (st : PEState) (wtPs : Int) : PEState × Int :=
  if st.weightLoadingMode then
    ({ st with weightReg := toInt16 (lowBits st.weightWidth wtPs) }, wtPs)
  else
    let mac := toInt32 (st.weightReg * st.actReg)
    let ps := toInt32 (wtPs + mac)
    ({ st with partialSumReg := ps, totalMacs := st.totalMacs + 1 }, ps)

/-- Handler `PE::HandleWeightValid`: weight-loading mode iff the signal is 1. -/
def handleWeightValid (st : PEState) (valid : Nat) : PEState :=
  { st with weightLoadingMode := valid = 1 }

end PEState

/-! ## Systolic array, gemmini iteration (src/gemmini/systolic_array.cpp)

This iteration drives its PEs through `setWeight`, `controlSignal` and
`receiveData`, calls of a PE class whose definition is not in the
repository (only this caller is); its state is modelled from the spec. -/

/-- Modelled from the spec: the PE iteration addressed by
src/gemmini/systolic_array.cpp (`setWeight` / `controlSignal` /
`receiveData`) is absent from the source tree.  Per spec §4.2 a PE holds a
stationary weight, a registered activation and a 32-bit accumulator. -/
structure GPE where
  weight : Int
  act : Int
  psum : Int
  deriving Repr, DecidableEq

namespace GPE

/-- Modelled from the spec (§4.3): a direct weight store into the PE. -/
def setWeight (g : GPE) (w : Int) : GPE := { g with weight := w }

/-- Modelled from the spec: control signal 1 resets the PE accumulator
(source comment "Reset signal" at src/gemmini/systolic_array.cpp:138);
signal 2 is the asynchronous result-read request, which changes no PE
state in the source. -/
def controlSignal (g : GPE) (sig : Nat) : GPE :=
  if sig = 1 then { g with psum := 0 } else g

/-- Modelled from the spec (§4.2): receiving an activation registers it and
accumulates `weight * act` into the 32-bit partial sum. -/
def receiveData (g : GPE) (v : Int) : GPE :=
  { g with act := v, psum := toInt32 (g.psum + toInt32 (g.weight * v)) }

end GPE

/-- Point update of the PE store (`pes_[i]` assignment). -/
def updPE (pes : Nat → GPE) (i : Nat) (g : GPE) : Nat → GPE :=
  fun j => if j = i then g else pes j

/-- Systolic-array state (src/include/gemmini/systolic_array.hpp):
`getPE(r, c)` is `pes_[r * cols_ + c]`. -/
structure SAState where
  rows : Nat
  cols : Nat
  computeTime : Nat
  pes : Nat → GPE
  processing : Bool
  currentCycle : Nat
  totalCyclesNeeded : Nat
  currentInput : Option (List Int)
  resultMatrix : Matrix
  totalMatrixOps : Nat

/-- The row-major `(r, c)` iteration order of the nested weight-load loops. -/
def allPairs (rows cols : Nat) : List (Nat × Nat) :=
  (List.range rows).flatMap fun r => (List.range cols).map fun c => (r, c)

/-- The nested loops of `SystolicArray::handleWeights_` (lines 100-112):
for each `(r, c)` in row-major order, `getPE(r, c)->setWeight(weights->at(r, c))`.
`none` marks an out-of-allocation read of the weight matrix. -/
def loadLoop (w : Matrix) (cols : Nat) :
    List (Nat × Nat) → (Nat → GPE) → Option (Nat → GPE)
  | [], pes => some pes
  | p :: rest, pes =>
    match w.atF p.1 p.2 with
    | none => none
    | some v =>
      loadLoop w cols rest
        (updPE pes (p.1 * cols + p.2) ((pes (p.1 * cols + p.2)).setWeight v))

namespace SAState

/-- Handler `SystolicArray::handleWeights_` (src/gemmini/systolic_array.cpp 88-113):
reject (log, no-op) unless the weight matrix is exactly `rows × cols`,
otherwise store `weights->at(r, c)` into PE `(r, c)` for every cell. -/
def handleWeights (st : SAState) (w : Matrix) : Option SAState :=
  if w.rows ≠ st.rows ∨ w.cols ≠ st.cols then some st
  else (loadLoop w st.cols (allPairs st.rows st.cols) st.pes).map
    fun pes' => { st with pes := pes' }

/-- Handler `SystolicArray::handleVector_` (src/gemmini/systolic_array.cpp 116-154):
reject while still processing; reject an input whose size differs from
`rows_`; otherwise allocate a fresh `rows × 1` result, send the reset
control signal to every PE, latch the input and start the pass with
`total_cycles_needed_ = rows_ + cols_ - 1 + compute_time_`. -/
def handleVector (st : SAState) (input : List Int) : SAState :=
  if st.processing then st
  else if input.length ≠ st.rows then st
  else
    { st with
      resultMatrix := Matrix.mk0 st.rows 1
      pes := fun i => if i < st.rows * st.cols then (st.pes i).controlSignal 1 else st.pes i
      currentInput := some input
      processing := true
      currentCycle := 0
      totalCyclesNeeded := st.rows + st.cols - 1 + st.computeTime }

/-- One row of the per-cycle feed loop of `processOneCycle_` (lines 190-211):
`active_col = current_cycle_ - r`; when it lies in `[0, cols)` and `r` indexes
into the input vector, PE `(r, active_col)` receives `input[r]`. -/
def feedRow (input : List Int) (cycle cols : Nat) (pes : Nat → GPE) (r : Nat) :
    Nat → GPE :=
  let ac : Int := (cycle : Int) - (r : Int)
  if 0 ≤ ac ∧ ac < (cols : Int) then
    match input[r]? with
    | some v =>
      let idx := r * cols + ac.toNat
      updPE pes idx ((pes idx).receiveData v)
    | none => pes
  else pes

/-- The per-row body of `computationComplete_` (lines 229-242): send the
read request (control signal 2) to the PE in the last column of row `r` and
store the placeholder value 0 into `result_matrix_->at(r, 0)`. -/
def completeRow (cols : Nat) (acc : (Nat → GPE) × Option Matrix) (r : Nat) :
    (Nat → GPE) × Option Matrix :=
  let idx := r * cols + (cols - 1)
  (updPE acc.1 idx ((acc.1 idx).controlSignal 2),
   acc.2.bind fun m => m.setF r 0 0)

/-- Method `SystolicArray::computationComplete_` (src/gemmini/systolic_array.cpp
223-253): for each row, signal the rightmost PE and write the placeholder 0
into the result column vector; emit the result matrix, bump the operation
counter and clear `processing_`. -/
def computationComplete (st : SAState) : Option (SAState × List Matrix) :=
  let acc := (List.range st.rows).foldl (completeRow st.cols) (st.pes, some st.resultMatrix)
  acc.2.map fun res =>
    ({ st with pes := acc.1, resultMatrix := res, processing := false,
               totalMatrixOps := st.totalMatrixOps + 1 }, [res])

/-- Method `SystolicArray::processOneCycle_` (src/gemmini/systolic_array.cpp
176-220): nothing happens unless processing; otherwise feed the diagonal
wavefront, advance the cycle counter and finish once
`current_cycle_ >= total_cycles_needed_`. -/
def processOneCycle (st : SAState) : Option (SAState × List Matrix) :=
  if st.processing = false then some (st, [])
  else
    match st.currentInput with
    | none => none
    | some input =>
      let pes' := (List.range st.rows).foldl (feedRow input st.currentCycle st.cols) st.pes
      let st' := { st with pes := pes', currentCycle := st.currentCycle + 1 }
      if st.totalCyclesNeeded ≤ st'.currentCycle then st'.computationComplete
      else some (st', [])

/-- Method `SystolicArray::tick_` iterated `n` times, collecting every matrix the
array emits on `out_results`. -/
def runCycles (st : SAState) : Nat → Option (SAState × List Matrix)
  | 0 => some (st, [])
  | n + 1 =>
    st.processOneCycle.bind fun p =>
      (p.1.runCycles n).map fun q => (q.1, p.2 ++ q.2)

end SAState

/-! ## Systolic array, execute iteration (src/execute/systolic_array.cpp)

Only the activation-feed section of `ProcessOneCycle` (lines 136-158) is
embedded; it is the west-edge wavefront scheduler. -/

/-- The activation injections `SystolicArray::ProcessOneCycle`
(src/execute/systolic_array.cpp 136-158) performs at cycle `t`: during the
feeding phase (`t < rows + cols - 1`), for each row `r` it computes
`col = t - r` and, when `col` is a valid column, `r` indexes the input and
`col == 0`, feeds `input[r]` to PE `(r, 0)`.  Each injection is returned as
`(row, column, value)`. -/
def activationFeeds (rows cols : Nat) (input : List Int) (t : Nat) :
    List (Nat × Nat × Int) :=
  if t < rows + cols - 1 then
    (List.range rows).flatMap fun r =>
      let col : Int := (t : Int) - (r : Int)
      if 0 ≤ col ∧ col < (cols : Int) ∧ r < input.length then
        if col = 0 then [(r, 0, input.getD r 0)] else []
      else []
  else []

/-! ## Matrix multiplier, gemmini iteration (src/gemmini/matrix_multiplier.cpp) -/

/-- Messages the multiplier sends: a weight matrix or an input vector to the
systolic array, or the final result on `out_result`. -/
inductive MMOut where
  | weights (m : Matrix)
  | vec (v : List Int)
  | result (m : Matrix)
  deriving Repr, DecidableEq

/-- Multiplier state (src/include/gemmini/matrix_multiplier.hpp). -/
structure MMState where
  systolicRows : Nat
  systolicCols : Nat
  matrixA : Option Matrix
  matrixB : Option Matrix
  resultMatrix : Option Matrix
  currentRowBlock : Nat
  currentColBlock : Nat
  totalRowBlocks : Nat
  totalColBlocks : Nat
  busy : Bool
  totalMms : Nat
  totalBlocks : Nat
  deriving Repr, DecidableEq

/-- The weight-fill loops of `MatrixMultiplier::processNextBlock_`
(src/gemmini/matrix_multiplier.cpp 157-165): for `r < block_rows` and
`c < block_cols`, when `row_offset + r < a.rows && c < b.rows`, store
`b.at(c, col_offset + r)` into `weights.at(r, c)`. -/
def weightFill (a b : Matrix) (rowOffset colOffset blockRows blockCols : Nat)
    (w0 : Matrix) : Option Matrix :=
  (List.range blockRows).foldlM
    (fun w r =>
      (List.range blockCols).foldlM
        (fun w c =>
          if rowOffset + r < a.rows ∧ c < b.rows then
            (b.atF c (colOffset + r)).bind fun v => w.setF r c v
          else some w)
        w)
    w0

/-- The row-vector build of `processNextBlock_` (lines 174-185): a vector of
length `a.cols`, zero-initialised, filled from row `row_offset + r` of `a`
when that row exists. -/
def buildRowVector (a : Matrix) (rowOffset r : Nat) : Option (List Int) :=
  (List.range a.cols).foldlM
    (fun vec c =>
      if rowOffset + r < a.rows then
        (a.atF (rowOffset + r) c).map fun v => vec.set c v
      else some vec)
    (List.replicate a.cols 0)

namespace MMState

/-- Method `MatrixMultiplier::processNextBlock_` (src/gemmini/matrix_multiplier.cpp
140-195): build the block weight matrix and the block row vectors, send them
to the systolic array, bump the block counter. -/
def processNextBlock (st : MMState) : Option (MMState × List MMOut) :=
  match st.matrixA, st.matrixB with
  | some a, some b =>
    let rowOffset := st.currentRowBlock * st.systolicRows
    let colOffset := st.currentColBlock * st.systolicCols
    let blockRows := min st.systolicRows (a.rows - rowOffset)
    let blockCols := min st.systolicCols (b.cols - colOffset)
    (weightFill a b rowOffset colOffset blockRows blockCols
        (Matrix.mk0 st.systolicRows st.systolicCols)).bind fun w =>
      ((List.range blockRows).mapM fun r => buildRowVector a rowOffset r).map
        fun vecs =>
          ({ st with totalBlocks := st.totalBlocks + 1 },
           MMOut.weights w :: vecs.map MMOut.vec)
  | _, _ => none

/-- Method `MatrixMultiplier::startMultiplication_` (src/gemmini/matrix_multiplier.cpp
95-137): ignore the request while busy; reject incompatible dimensions;
otherwise set busy, reset the block counters, compute the block counts,
allocate the result and process the first block. -/
def startMultiplication (st : MMState) : Option (MMState × List MMOut) :=
  if st.busy then some (st, [])
  else
    match st.matrixA, st.matrixB with
    | some a, some b =>
      if a.cols ≠ b.rows then some (st, [])
      else
        let st1 :=
          { st with
            busy := true
            currentRowBlock := 0
            currentColBlock := 0
            totalRowBlocks := (a.rows + st.systolicRows - 1) / st.systolicRows
            totalColBlocks := (b.cols + st.systolicCols - 1) / st.systolicCols
            resultMatrix := some (Matrix.mk0 a.rows b.cols) }
        (processNextBlock st1).map fun p =>
          ({ p.1 with totalMms := p.1.totalMms + 1 }, p.2)
    | _, _ => none

/-- Method `MatrixMultiplier::multiply` (src/gemmini/matrix_multiplier.cpp 84-92):
the port handlers store the operands into `matrix_a_` / `matrix_b_`
unconditionally, then `startMultiplication_` runs. -/
def multiply (st : MMState) (a b : Matrix) : Option (MMState × List MMOut) :=
  startMultiplication { st with matrixA := some a, matrixB := some b }

/-- Method `MatrixMultiplier::multiplierDone_` (src/gemmini/matrix_multiplier.cpp
243-254): send the assembled result on `out_result` and clear busy. -/
def multiplierDone (st : MMState) : Option (MMState × List MMOut) :=
  st.resultMatrix.map fun res => ({ st with busy := false }, [MMOut.result res])

/-- Handler `MatrixMultiplier::handleSystolicResults_` (src/gemmini/matrix_multiplier.cpp
198-240): ignored when not busy; otherwise copy the block result into the
final result matrix, advance the block counters in row-major order and
either finish or process the next block. -/
def handleSystolicResults (st : MMState) (results : Matrix) :
    Option (MMState × List MMOut) :=
  if st.busy = false then some (st, [])
  else
    match st.matrixA, st.matrixB, st.resultMatrix with
    | some a, some b, some res =>
      let rowOffset := st.currentRowBlock * st.systolicRows
      let colOffset := st.currentColBlock * st.systolicCols
      let blockRows := min st.systolicRows (a.rows - rowOffset)
      let blockCols := min st.systolicCols (b.cols - colOffset)
      ((List.range blockRows).foldlM
          (fun m r =>
            (List.range blockCols).foldlM
              (fun m c =>
                (results.atF r c).bind fun v =>
                  m.setF (rowOffset + r) (colOffset + c) v)
              m)
          res).bind fun res' =>
        let st' := { st with resultMatrix := some res' }
        let ncol := st'.currentColBlock + 1
        if st'.totalColBlocks ≤ ncol then
          let nrow := st'.currentRowBlock + 1
          let st'' := { st' with currentColBlock := 0, currentRowBlock := nrow }
          if st''.totalRowBlocks ≤ nrow then st''.multiplierDone
          else st''.processNextBlock
        else ({ st' with currentColBlock := ncol }).processNextBlock
    | _, _, _ => none

end MMState

/-- Spec-described block weights, for comparison with `weightFill`: the spec
says the weight matrix sent for a block is the transpose of the
`K × array_cols` slice of `b` starting at `col_offset` (entry `(k, c)` of
the slice being `b[k][col_offset + c]`), zero-padded where the block is
ragged.  So cell `(i, j)` holds `b[j][col_offset + i]` when `i` is a valid
block column and `j < K = b.rows`, and 0 otherwise. -/
def specBlockWeights (b : Matrix) (sysR sysC colOffset blockCols : Nat) : Matrix :=
  ⟨sysR, sysC,
   (List.range (sysR * sysC)).map fun idx =>
     let i := idx / sysC
     let j := idx % sysC
     if i < blockCols ∧ j < b.rows then b.data.getD (j * b.cols + (colOffset + i)) 0
     else 0⟩

/-- Independent reference integer arithmetic: the standard matrix product
(entry `(r, c)` is `Σ_k A[r][k] * B[k][c]` over unbounded integers). -/
def matProdRef (a b : Matrix) : Matrix :=
  ⟨a.rows, b.cols,
   (List.range (a.rows * b.cols)).map fun i =>
     let r := i / b.cols
     let c := i % b.cols
     (((List.range a.cols).map fun k =>
        a.data.getD (r * a.cols + k) 0 * b.data.getD (k * b.cols + c) 0)).sum⟩

/-! ## Concrete scenario states -/

/-- Operand A of the spec §8 concrete scenario, `[[1,2],[3,4]]`. -/
def specA : Matrix := ⟨2, 2, [1, 2, 3, 4]⟩

/-- Operand B of the spec §8 concrete scenario, `[[5,6],[7,8]]`. -/
def specB : Matrix := ⟨2, 2, [5, 6, 7, 8]⟩

/-- A freshly constructed PE of the gemmini array iteration. -/
def gpe0 : GPE := ⟨0, 0, 0⟩

/-- A freshly constructed 2×2 gemmini-iteration systolic array with zero
compute latency. -/
def saInit : SAState :=
  { rows := 2, cols := 2, computeTime := 0, pes := fun _ => gpe0
    processing := false, currentCycle := 0, totalCyclesNeeded := 0
    currentInput := none, resultMatrix := Matrix.mk0 2 1, totalMatrixOps := 0 }

/-- The 2×2 array after loading the block weights the multiplier builds for
`specB` (its entry `(r, c)` is `specB.at(c, r)`). -/
def saLoaded : SAState :=
  (saInit.handleWeights ⟨2, 2, [5, 7, 6, 8]⟩).getD saInit

/-- A full vector pass of the spec scenario: feed row `[1, 2]` of `specA`
and run the `total_cycles_needed_ = 3` cycles to completion. -/
def saRun : Option (SAState × List Matrix) :=
  (saLoaded.handleVector [1, 2]).runCycles 3

/-- A freshly constructed multiplier in front of a 1×1 array. -/
def mmInit : MMState :=
  { systolicRows := 1, systolicCols := 1
    matrixA := none, matrixB := none, resultMatrix := none
    currentRowBlock := 0, currentColBlock := 0
    totalRowBlocks := 0, totalColBlocks := 0
    busy := false, totalMms := 0, totalBlocks := 0 }

/-- A freshly constructed multiplier in front of a 2×2 array. -/
def mm2Init : MMState :=
  { mmInit with systolicRows := 2, systolicCols := 2 }

/-- Multiplicand with an all-ones 2×2 matrix A. -/
def a22 : Matrix := ⟨2, 2, [1, 1, 1, 1]⟩

/-- Operand B for the ragged-block scenario, the 2×3 matrix `[[1,2,3],[4,5,6]]`;
with a 2×2 array its second column block is ragged (one valid column). -/
def b23 : Matrix := ⟨2, 3, [1, 2, 3, 4, 5, 6]⟩

/-- Driving `mm2Init` through `multiply(a22, b23)` and the delivery of the
first block result: the multiplier then issues the second (ragged) column
block. -/
def mmRaggedRun : Option (MMState × List MMOut) :=
  (mm2Init.multiply a22 b23).bind fun p =>
    p.1.handleSystolicResults ⟨2, 2, [9, 9, 9, 9]⟩

/-- A PE in weight-loading mode holding weight 3 (the upper PE of a column
through which a weight destined for a lower PE is relayed). -/
def peTop : PEState :=
  { weightReg := 3, actReg := 0, partialSumReg := 0, busy := false
    weightLoadingMode := true, cycleCounter := 0, weightWidth := 16
    computeTime := 0, totalMacs := 0 }

/-- The PE below `peTop` in the same column, holding weight 4. -/
def peBot : PEState :=
  { peTop with weightReg := 4 }

/-! ## Helper lemmas -/

/-- Membership in the row-major pair list. -/
lemma mem_allPairs {rows cols : Nat} {p : Nat × Nat} :
    p ∈ allPairs rows cols ↔ p.1 < rows ∧ p.2 < cols := by
  obtain ⟨a, b⟩ := p
  simp only [allPairs, List.mem_flatMap, List.mem_map, List.mem_range, Prod.mk.injEq]
  constructor
  · rintro ⟨r, hr, c, hc, rfl, rfl⟩
    exact ⟨hr, hc⟩
  · rintro ⟨ha, hb⟩
    exact ⟨a, ha, b, hb, rfl, rfl⟩

/-- The row-major pair list has no duplicates. -/
lemma allPairs_nodup (rows cols : Nat) : (allPairs rows cols).Nodup := by
  induction rows with
  | zero => simp [allPairs]
  | succ n ih =>
    have hstep : allPairs (n + 1) cols =
        allPairs n cols ++ (List.range cols).map (fun c => (n, c)) := by
      simp [allPairs, List.range_succ]
    rw [hstep]
    refine List.Nodup.append ih ?_ ?_
    · exact (List.nodup_range cols).map fun c c' h => by
        simpa using congrArg Prod.snd h
    · intro p hp hp'
      obtain ⟨h1, _⟩ := mem_allPairs.mp hp
      obtain ⟨c, _, rfl⟩ := List.mem_map.mp hp'
      exact absurd h1 (by omega)

/-- Row-major flat indices determine the row and the column. -/
lemma rc_index_inj {cols r c r' c' : Nat} (hc : c < cols) (hc' : c' < cols)
    (h : r * cols + c = r' * cols + c') : r = r' ∧ c = c' := by
  have hpos : 0 < cols := by omega
  have hdiv : ∀ a b : Nat, b < cols → (a * cols + b) / cols = a := by
    intro a b hb
    rw [Nat.mul_comm a cols, Nat.mul_add_div hpos, Nat.div_eq_of_lt hb, Nat.add_zero]
  have hr : r = r' := by
    have := hdiv r c hc
    rw [h, hdiv r' c' hc'] at this
    omega
  subst hr
  exact ⟨rfl, by omega⟩

/-- Indices untouched by the weight-load loop keep their PE unchanged. -/
lemma loadLoop_skip (w : Matrix) (cols : Nat) :
    ∀ (ps : List (Nat × Nat)) (pes pes' : Nat → GPE),
      loadLoop w cols ps pes = some pes' →
      ∀ i, (∀ p ∈ ps, p.1 * cols + p.2 ≠ i) → pes' i = pes i := by
  intro ps
  induction ps with
  | nil =>
    intro pes pes' h i _
    simp only [loadLoop, Option.some.injEq] at h
    rw [← h]
  | cons p rest ih =>
    intro pes pes' h i hi
    cases hw : w.atF p.1 p.2 with
    | none => simp [loadLoop, hw] at h
    | some v =>
      simp only [loadLoop, hw] at h
      have hrest := ih _ _ h i fun q hq => hi q (List.mem_cons_of_mem _ hq)
      rw [hrest, updPE]
      have hne : i ≠ p.1 * cols + p.2 := fun he => hi p (List.mem_cons_self p rest) he.symm
      simp [hne]

/-- The weight-load loop succeeds when every read is in bounds. -/
lemma loadLoop_total (w : Matrix) (cols : Nat) :
    ∀ (ps : List (Nat × Nat)) (pes : Nat → GPE),
      (∀ p ∈ ps, (w.atF p.1 p.2).isSome) →
      ∃ pes', loadLoop w cols ps pes = some pes' := by
  intro ps
  induction ps with
  | nil => exact fun pes _ => ⟨pes, rfl⟩
  | cons p rest ih =>
    intro pes hall
    cases hw : w.atF p.1 p.2 with
    | none =>
      have := hall p (List.mem_cons_self p rest)
      rw [hw] at this
      simp at this
    | some v =>
      obtain ⟨pes', h⟩ :=
        ih (updPE pes (p.1 * cols + p.2) ((pes (p.1 * cols + p.2)).setWeight v))
          fun q hq => hall q (List.mem_cons_of_mem _ hq)
      exact ⟨pes', by simp [loadLoop, hw, h]⟩

/-- After the weight-load loop, a PE at a uniquely-indexed pair of the loop
holds the matrix value read for that pair. -/
lemma loadLoop_weight (w : Matrix) (cols : Nat) :
    ∀ (ps : List (Nat × Nat)) (pes pes' : Nat → GPE),
      loadLoop w cols ps pes = some pes' →
      ps.Nodup →
      ∀ p ∈ ps, (∀ q ∈ ps, q.1 * cols + q.2 = p.1 * cols + p.2 → q = p) →
        ∃ v, w.atF p.1 p.2 = some v ∧ (pes' (p.1 * cols + p.2)).weight = v := by
  intro ps
  induction ps with
  | nil => intro pes pes' _ _ p hp; simp at hp
  | cons q rest ih =>
    intro pes pes' h hnd p hp huniq
    cases hw : w.atF q.1 q.2 with
    | none => simp [loadLoop, hw] at h
    | some v =>
      simp only [loadLoop, hw] at h
      rcases List.mem_cons.mp hp with rfl | hmem
      · refine ⟨v, hw, ?_⟩
        have hnotin : ∀ q' ∈ rest, q'.1 * cols + q'.2 ≠ p.1 * cols + p.2 := by
          intro q' hq' he
          have hqp : q' = p := huniq q' (List.mem_cons_of_mem _ hq') he
          exact (List.nodup_cons.mp hnd).1 (hqp ▸ hq')
        rw [loadLoop_skip w cols rest _ _ h _ hnotin, updPE]
        simp [GPE.setWeight]
      · exact ih _ _ h (List.nodup_cons.mp hnd).2 p hmem
          fun q' hq' he => huniq q' (List.mem_cons_of_mem _ hq') he

/-! ## Claim theorems -/

/-- C1 (code bug): on the spec §8 scenario (A = [[1,2],[3,4]],
B = [[5,6],[7,8]], 2×2 array, zero latency), a completed vector pass of the
gemmini systolic array emits the placeholder all-zero column vector written
by `computationComplete_` — never a value read from a PE — while the
reference product is [[19,22],[43,50]], none of whose entries is 0.  The
assembled `multiply` result, a copy of such block results, therefore cannot
equal the reference product. -/
theorem multiply_result_is_placeholder_zero_not_product :
    (saRun.map fun p => p.2) = some [⟨2, 1, [0, 0]⟩] ∧
    matProdRef specA specB = ⟨2, 2, [19, 22, 43, 50]⟩ ∧
    ∀ x ∈ ([19, 22, 43, 50] : List Int), x ≠ 0 := by
  refine ⟨by decide, by decide, by decide⟩

/-- C2 (code bug): with a 2×2 array, A = a22 and B = b23 (2×3), the second
column block is ragged (one valid column, `col_offset = 2`).  The weight
matrix the multiplier actually sends for that block is [[3,0],[4,0]]: the
valid slice entry B[1][2] = 6 is dropped (cell (0,1) stays 0) and the
padding cell (1,0) is corrupted with 4, read past the end of row 0 of B's
flat storage.  The spec-described transpose of the K×(array_cols) slice,
zero-padded, is [[3,6],[0,0]]. -/
theorem ragged_block_weights_diverge_from_spec_transpose :
    (mmRaggedRun.map fun p => p.2.head?) =
      some (some (MMOut.weights ⟨2, 2, [3, 0, 4, 0]⟩)) ∧
    specBlockWeights b23 2 2 2 1 = ⟨2, 2, [3, 6, 0, 0]⟩ ∧
    (⟨2, 2, [3, 0, 4, 0]⟩ : Matrix) ≠ ⟨2, 2, [3, 6, 0, 0]⟩ := by
  refine ⟨by decide, by decide, by decide⟩

/-- C3 (code bug): a `multiply(A', B')` issued while the multiplier is busy
is "ignored" by `startMultiplication_`, but `multiply` has already routed
A' and B' through the port handlers, which overwrite `matrix_a_` /
`matrix_b_` unconditionally.  After the rejected call the in-flight
multiplication's operands are A', B' — not the original A, B — while `busy`
is still set, so the remaining blocks are computed from the wrong
operands. -/
theorem busy_multiply_clobbers_inflight_operands :
    ((mmInit.multiply ⟨1, 1, [1]⟩ ⟨1, 1, [2]⟩).map fun p => (p.1.busy, p.1.matrixA)) =
      some (true, some ⟨1, 1, [1]⟩) ∧
    (((mmInit.multiply ⟨1, 1, [1]⟩ ⟨1, 1, [2]⟩).bind fun p =>
        p.1.multiply ⟨1, 1, [5]⟩ ⟨1, 1, [6]⟩).map fun p =>
          (p.1.busy, p.1.matrixA, p.1.matrixB, p.2)) =
      some (true, some ⟨1, 1, [5]⟩, some ⟨1, 1, [6]⟩, []) ∧
    (⟨1, 1, [5]⟩ : Matrix) ≠ ⟨1, 1, [1]⟩ := by
  refine ⟨by decide, by decide, by decide⟩

/-- C4 (confirmed): `handleVector_` rejects, as a complete no-op, any call
made while a pass is in flight or whose vector length differs from the row
count; an accepted call starts processing at cycle 0, latches the input,
allocates a fresh result column, and sends the reset control signal to
every PE, zeroing its accumulator while preserving its weight and
activation registers. -/
theorem multiply_vector_guards_and_reset (st : SAState) (input : List Int) :
    ((st.processing = true ∨ input.length ≠ st.rows) → st.handleVector input = st) ∧
    (st.processing = false → input.length = st.rows →
      (st.handleVector input).processing = true ∧
      (st.handleVector input).currentCycle = 0 ∧
      (st.handleVector input).currentInput = some input ∧
      (st.handleVector input).totalCyclesNeeded = st.rows + st.cols - 1 + st.computeTime ∧
      (st.handleVector input).resultMatrix = Matrix.mk0 st.rows 1 ∧
      ∀ i, i < st.rows * st.cols →
        ((st.handleVector input).pes i).psum = 0 ∧
        ((st.handleVector input).pes i).weight = (st.pes i).weight ∧
        ((st.handleVector input).pes i).act = (st.pes i).act) := by
  constructor
  · rintro (h | h)
    · simp [SAState.handleVector, h]
    · by_cases hp : st.processing <;> simp [SAState.handleVector, hp, h]
  · intro h1 h2
    have hv : st.handleVector input =
        { st with
          resultMatrix := Matrix.mk0 st.rows 1
          pes := fun i =>
            if i < st.rows * st.cols then (st.pes i).controlSignal 1 else st.pes i
          currentInput := some input
          processing := true
          currentCycle := 0
          totalCyclesNeeded := st.rows + st.cols - 1 + st.computeTime } := by
      simp [SAState.handleVector, h1, h2]
    rw [hv]
    refine ⟨rfl, rfl, rfl, rfl, rfl, ?_⟩
    intro i hi
    simp [hi, GPE.controlSignal]

/-- Witness for C4: the fresh 2×2 array rejects a length-3 vector
unchanged, and accepts [1, 2], starting the pass with zeroed
accumulators. -/
theorem multiply_vector_guards_and_reset_witness :
    (saInit.handleVector [1, 2, 3] = saInit) ∧
    (saInit.handleVector [1, 2]).processing = true ∧
    ((saInit.handleVector [1, 2]).pes 0).psum = 0 := by
  refine ⟨(multiply_vector_guards_and_reset saInit [1, 2, 3]).1 (Or.inr (by decide)),
    ((multiply_vector_guards_and_reset saInit [1, 2]).2 rfl rfl).1,
    (((multiply_vector_guards_and_reset saInit [1, 2]).2 rfl rfl).2.2.2.2.2 0
      (by decide)).1⟩

/-- C5 (confirmed): an accepted (started) vector pass sets
`total_cycles_needed_ = rows_ + cols_ - 1 + compute_time_`. -/
theorem total_cycles_needed_eq (st : SAState) (input : List Int)
    (h1 : st.processing = false) (h2 : input.length = st.rows) :
    (st.handleVector input).totalCyclesNeeded =
      st.rows + st.cols - 1 + st.computeTime := by
  simp [SAState.handleVector, h1, h2]

/-- Witness for C5: the fresh 2×2 zero-latency array needs 3 cycles. -/
theorem total_cycles_needed_eq_witness :
    saInit.processing = false ∧ ([1, 2] : List Int).length = saInit.rows ∧
    (saInit.handleVector [1, 2]).totalCyclesNeeded = 3 :=
  ⟨rfl, rfl, total_cycles_needed_eq saInit [1, 2] rfl rfl⟩

/-- C6 (confirmed): in the execute-iteration per-cycle drive, when the
input vector covers the rows and the array has at least one column, the
activation injections at cycle `t` are exactly one injection of `input[t]`
into the west-edge PE `(t, 0)` when `t < rows`, and none otherwise: row `r`
is injected exactly at cycle `t = r`, and never into a non-west-edge PE. -/
theorem activation_injection_west_edge_diagonal (rows cols : Nat)
    (input : List Int) (t : Nat)
    (hlen : input.length = rows) (hcols : 1 ≤ cols) :
    activationFeeds rows cols input t =
      if t < rows then [(t, 0, input.getD t 0)] else [] := by
  have key : ∀ n, n ≤ rows →
      ((List.range n).flatMap fun r =>
        if 0 ≤ (t : Int) - (r : Int) ∧ (t : Int) - (r : Int) < (cols : Int) ∧
            r < input.length then
          if (t : Int) - (r : Int) = 0 then [(r, 0, input.getD r 0)] else []
        else []) =
      if t < n then [(t, 0, input.getD t 0)] else [] := by
    intro n
    induction n with
    | zero => simp
    | succ m ih =>
      intro hm
      rw [List.range_succ, List.flatMap_append, ih (by omega)]
      simp only [List.flatMap_cons, List.flatMap_nil, List.append_nil]
      by_cases hmt : m = t
      · subst hmt
        have h1 : ¬ m < m := by omega
        have h2 : (0 : Int) ≤ (m : Int) - (m : Int) ∧
            (m : Int) - (m : Int) < (cols : Int) ∧ m < input.length := by
          refine ⟨by omega, ?_, by omega⟩
          have : (0 : Int) < (cols : Int) := by exact_mod_cast hcols
          omega
        have h5 : ((m : Int) - (m : Int) = 0) := by omega
        rw [if_neg h1, if_pos h2, if_pos h5, if_pos (by omega : m < m + 1),
          List.nil_append]
      · have hbody :
            (if 0 ≤ (t : Int) - (m : Int) ∧ (t : Int) - (m : Int) < (cols : Int) ∧
                m < input.length then
              if (t : Int) - (m : Int) = 0 then [(m, 0, input.getD m 0)] else []
            else []) = ([] : List (Nat × Nat × Int)) := by
          have hne : ¬ ((t : Int) - (m : Int) = 0) := by
            intro h0
            exact hmt (by omega)
          by_cases hcond : (0 : Int) ≤ (t : Int) - (m : Int) ∧
              (t : Int) - (m : Int) < (cols : Int) ∧ m < input.length
          · rw [if_pos hcond, if_neg hne]
          · rw [if_neg hcond]
        rw [hbody, List.append_nil]
        by_cases hlt : t < m
        · rw [if_pos hlt, if_pos (by omega : t < m + 1)]
        · rw [if_neg hlt, if_neg (by omega : ¬ t < m + 1)]
  have hnorm : activationFeeds rows cols input t =
      if t < rows + cols - 1 then
        ((List.range rows).flatMap fun r =>
          if 0 ≤ (t : Int) - (r : Int) ∧ (t : Int) - (r : Int) < (cols : Int) ∧
              r < input.length then
            if (t : Int) - (r : Int) = 0 then [(r, 0, input.getD r 0)] else []
          else [])
      else [] := rfl
  rw [hnorm]
  by_cases hphase : t < rows + cols - 1
  · rw [if_pos hphase, key rows le_rfl]
  · rw [if_neg hphase]
    have hnr : ¬ t < rows := by omega
    rw [if_neg hnr]

/-- Witness for C6: on a 2×2 array with input [7, 9], cycle 1 injects 9
into PE(1, 0) and nothing else. -/
theorem activation_injection_west_edge_diagonal_witness :
    ([7, 9] : List Int).length = 2 ∧ 1 ≤ 2 ∧
    activationFeeds 2 2 [7, 9] 1 = [(1, 0, 9)] := by
  refine ⟨rfl, by omega, ?_⟩
  have h := activation_injection_west_edge_diagonal 2 2 [7, 9] 1 rfl (by omega)
  simpa using h

/-- C7 (confirmed): `handleWeights_` with a weight matrix whose dimensions
are not exactly rows×cols is a complete no-op (so repeating it rejects
identically), and with matching dimensions it stores the value of cell
`(r, c)` into PE `(r, c)` for every `r < rows`, `c < cols`. -/
theorem load_weights_dimension_guard_and_store (st : SAState) (w : Matrix) :
    ((w.rows ≠ st.rows ∨ w.cols ≠ st.cols) → st.handleWeights w = some st) ∧
    (w.rows = st.rows → w.cols = st.cols → w.data.length = w.rows * w.cols →
      ∃ st', st.handleWeights w = some st' ∧
        ∀ r c, r < st.rows → c < st.cols →
          (st'.pes (r * st.cols + c)).weight = w.data.getD (r * w.cols + c) 0) := by
  constructor
  · intro h
    rw [SAState.handleWeights, if_pos h]
  · intro h1 h2 hlen
    have hneg : ¬(w.rows ≠ st.rows ∨ w.cols ≠ st.cols) := by simp [h1, h2]
    have hall : ∀ p ∈ allPairs st.rows st.cols, (w.atF p.1 p.2).isSome := by
      intro p hp
      obtain ⟨hr, hc⟩ := mem_allPairs.mp hp
      have hidx : p.1 * w.cols + p.2 < w.data.length := by
        rw [hlen, h1, h2]
        calc p.1 * st.cols + p.2 < p.1 * st.cols + st.cols := by omega
          _ = (p.1 + 1) * st.cols := by ring
          _ ≤ st.rows * st.cols := Nat.mul_le_mul_right _ hr
      rw [Matrix.atF, List.getElem?_eq_getElem hidx]
      rfl
    obtain ⟨pes', hload⟩ := loadLoop_total w st.cols _ st.pes hall
    have hw2 : w.cols = st.cols := h2
    refine ⟨{ st with pes := pes' }, ?_, ?_⟩
    · rw [SAState.handleWeights, if_neg hneg, hload]
      rfl
    · intro r c hr hc
      have hp : ((r, c) : Nat × Nat) ∈ allPairs st.rows st.cols :=
        mem_allPairs.mpr ⟨hr, hc⟩
      have huq : ∀ q ∈ allPairs st.rows st.cols,
          q.1 * st.cols + q.2 = (r, c).1 * st.cols + (r, c).2 → q = (r, c) := by
        intro q hq he
        obtain ⟨_, hq2⟩ := mem_allPairs.mp hq
        obtain ⟨he1, he2⟩ := rc_index_inj hq2 hc he
        exact Prod.ext he1 he2
      obtain ⟨v, hv, hwt⟩ := loadLoop_weight w st.cols _ _ _ hload
        (allPairs_nodup _ _) (r, c) hp huq
      have hflat : w.data.getD (r * w.cols + c) 0 = v := by
        rw [hw2]
        have hsome : w.data[r * st.cols + c]? = some v := by
          simpa [Matrix.atF, hw2] using hv
        simp [List.getD, hsome]
      rw [hflat]
      exact hwt

/-- Witness for C7: the fresh 2×2 array rejects a 1×1 weight matrix
unchanged, and loading [[5,7],[6,8]] stores 7 into PE(0, 1). -/
theorem load_weights_dimension_guard_and_store_witness :
    saInit.handleWeights ⟨1, 1, [0]⟩ = some saInit ∧
    ∃ st', saInit.handleWeights ⟨2, 2, [5, 7, 6, 8]⟩ = some st' ∧
      (st'.pes 1).weight = 7 := by
  constructor
  · exact (load_weights_dimension_guard_and_store saInit ⟨1, 1, [0]⟩).1
      (Or.inl (by decide))
  · obtain ⟨st', h1, h2⟩ :=
      (load_weights_dimension_guard_and_store saInit ⟨2, 2, [5, 7, 6, 8]⟩).2 rfl rfl rfl
    refine ⟨st', h1, ?_⟩
    have h3 := h2 0 1 (by decide) (by decide)
    simpa using h3

/-- C8 (code bug): `DelayFifo::Tick` on a depth-0 line with an empty deque
satisfies `size() >= depth` (0 ≥ 0) and so calls `front()` / `pop_front()`
on an empty `std::deque` — undefined behaviour (`none`), where the claim
(and the guarded access in src/tests/fifo_test.cpp) expect an empty tick to
emit nothing; for any positive depth the empty tick is the expected
no-op. -/
theorem delayfifo_depth_zero_empty_tick_underflow :
    DelayFifo.tick 0 ([] : List Int) = none ∧
    DelayFifo.tick 1 ([] : List Int) = some ([], none) := by
  refine ⟨by decide, by decide⟩

/-- C9 counterexample: a single weight value 9, sent down a column of two
weight-loading-mode PEs (weights 3 and 4), is stored by BOTH PEs it passes
— the first PE forwards it south unchanged yet also overwrites its own
weight.  Since the relayed value is the designated weight of at most one PE
of the column, a PE that is not the designated recipient also stored it,
refuting "stores only if it is the designated recipient this cycle". -/
theorem weight_loading_not_recipient_gated :
    (peTop.handleWeightPartialSum 9).2 = 9 ∧
    (peTop.handleWeightPartialSum 9).1.weightReg = 9 ∧
    (peBot.handleWeightPartialSum (peTop.handleWeightPartialSum 9).2).1.weightReg = 9 ∧
    peTop.weightReg = 3 ∧ peBot.weightReg = 4 := by
  refine ⟨by decide, by decide, by decide, by decide, by decide⟩

/-- C9 amended (corrected): in weight-loading mode a PE receiving a value
on the south-bound channel unconditionally stores the value's low
`weight_width` bits as its own weight (every arrival overwrites — there is
no per-cycle recipient gating in the PE) and always forwards the same value
south unchanged, performing no MAC and leaving the MAC counter and the
partial-sum register untouched. -/
theorem weight_loading_store_unconditional (st : PEState) (v : Int)
    (h : st.weightLoadingMode = true) :
    st.handleWeightPartialSum v =
      ({ st with weightReg := toInt16 (lowBits st.weightWidth v) }, v) := by
  simp [PEState.handleWeightPartialSum, h]

/-- Witness for the amended C9: `peTop` stores 9 and forwards 9. -/
theorem weight_loading_store_unconditional_witness :
    peTop.weightLoadingMode = true ∧
    peTop.handleWeightPartialSum 9 = ({ peTop with weightReg := 9 }, 9) := by
  refine ⟨rfl, ?_⟩
  rw [weight_loading_store_unconditional peTop 9 rfl]
  decide

/-- C10 (confirmed): delivering a result matrix to
`handleSystolicResults_` while the multiplier is not busy is ignored: the
entire multiplier state is unchanged and no message is sent (no new block
issued, no result emitted). -/
theorem results_ignored_when_not_busy (st : MMState) (results : Matrix)
    (h : st.busy = false) :
    st.handleSystolicResults results = some (st, []) := by
  simp [MMState.handleSystolicResults, h]

/-- Witness for C10: the idle fresh multiplier ignores a stray result. -/
theorem results_ignored_when_not_busy_witness :
    mmInit.busy = false ∧
    mmInit.handleSystolicResults ⟨1, 1, [7]⟩ = some (mmInit, []) :=
  ⟨rfl, results_ignored_when_not_busy mmInit ⟨1, 1, [7]⟩ rfl⟩

end Gemmini
